import Mathlib

/-!
# Task queue over a document store: lifecycle and claim protocol

A verification development for the task package (`internal/task/task.go`), the
HTTP read handler (`cmd/api/main.go`) and the way workers (`cmd/worker/main.go`)
use the claim operation.

Modelling conventions.

* A `Time` is an instant of `time.Time`: whole nanoseconds counted from the Go
  zero time; `IsZero` holds exactly for that instant.  The store holds an
  instant as a BSON datetime, a 64-bit count of milliseconds since the Unix
  epoch: `bsonTime` is the instant a `time.Time` comes back as.
* A `nil` map is `none`; a non-nil map is `some` of its content as the driver
  encodes it, keys with their BSON values, which the queue never inspects.
* The collection is the list of its documents in natural (insertion) order.
  Every driver call is one atomic step on that list.  The argument `fault`
  of a driver call is the failure injected by the environment (unreachable
  server, expired context); a failed call leaves the collection untouched.
* The reading of `time.Now()` in `StartTask` and `FinishTask` is used only as
  the value of a `$set`; the argument `now` of these operations is that reading
  as the store holds it.
* A sorted query acts on the first document of least sort key; among documents
  of equal key that is the first in natural order.
* Documents are written only by `CreateTask`, so decoding a found document
  into a `Task` always succeeds; a stored document is given as the `Task` it
  decodes to.
-/

namespace MongoTasks

/-! ## Data model -/

/-- An instant of `time.Time`: nanoseconds counted from the Go zero time. -/
abbrev Time := Int

/-- The method `time.Time.IsZero`. -/
def IsZero (t : Time) : Bool := t == 0

/-- A signed 64-bit result: the integer reduced modulo `2 ^ 64` into the range
of `int64`. -/
def wrapInt64 (x : Int) : Int :=
  (x + 9223372036854775808) % 18446744073709551616 - 9223372036854775808

/-- The method `time.Time.Unix`: whole seconds since the Unix epoch, which lies
62135596800 seconds after the Go zero time. -/
def Time.Unix (t : Time) : Int := wrapInt64 (t / 1000000000 - 62135596800)

/-- The method `time.Time.Nanosecond`: the nanoseconds within the second. -/
def Time.Nanosecond (t : Time) : Int := t % 1000000000

/-- The driver function `primitive.NewDateTimeFromTime`, by which a `time.Time`
is encoded: `t.Unix()*1e3 + int64(t.Nanosecond())/1e6` in `int64`. -/
def NewDateTimeFromTime (t : Time) : Int :=
  wrapInt64 (Time.Unix t * 1000 + Time.Nanosecond t / 1000000)

/-- The function `time.Unix`: the instant `sec` seconds and `nsec` nanoseconds
after the Unix epoch. -/
def time.Unix (sec nsec : Int) : Time := (sec + 62135596800) * 1000000000 + nsec

/-- The driver method `DateTime.Time`, by which a BSON datetime is decoded:
`time.Unix(d/1000, d%1000*1000000)` with the truncating division of Go. -/
def DateTime.Time (d : Int) : Time := time.Unix (Int.tdiv d 1000) (Int.tmod d 1000 * 1000000)

/-- A `time.Time` after being encoded as a BSON datetime and decoded again. -/
def bsonTime (t : Time) : Time := DateTime.Time (NewDateTimeFromTime t)

/-- The content of a non-nil `map[string]interface{}` as the driver encodes it:
keys with their BSON values.  The values are opaque to the queue. -/
abbrev Document := List (String × String)

/-- The struct `Task`. -/
structure Task where
  ID : String
  Data : Option Document
  CreatedAt : Time
  StartedAt : Option Time
  FinishedAt : Option Time
  deriving DecidableEq, Repr

/-- The collection `tasks`, in natural order; each document is given as the
`Task` it decodes to. -/
abbrev Collection := List Task

/-- A `Task` after being encoded as a BSON document and decoded again: every
`time.Time` passes through a BSON datetime, a nil pointer through null. -/
def bsonTask (task : Task) : Task :=
  { task with
    CreatedAt := bsonTime task.CreatedAt
    StartedAt := task.StartedAt.map bsonTime
    FinishedAt := task.FinishedAt.map bsonTime }

/-! ## The driver primitives used by the package -/

/-- Errors a driver call can return. -/
inductive DriverError where
  | ErrNoDocuments
  | failure (msg : String)
  deriving DecidableEq, Repr

/-- The text of a driver error. -/
def DriverError.Error : DriverError → String
  | .ErrNoDocuments => "mongo: no documents in result"
  | .failure msg => msg

/-- The driver call `InsertOne`: the primary key `_id` is unique, so a document
whose key is already present is rejected; otherwise the document is appended as
encoded.  The text of the duplicate-key error stands for the message of the
server, which also names the collection and the key. -/
def InsertOne (fault : Option String) (c : Collection) (doc : Task) :
    Except DriverError String × Collection :=
  match fault with
  | some msg => (.error (.failure msg), c)
  | none =>
    if c.any (fun d => d.ID == doc.ID) then
      (.error (.failure "E11000 duplicate key error"), c)
    else
      (.ok doc.ID, c ++ [bsonTask doc])

/-- The driver call `FindOne` with a filter. -/
def FindOne (fault : Option String) (c : Collection) (filter : Task → Bool) :
    Except DriverError Task :=
  match fault with
  | some msg => .error (.failure msg)
  | none =>
    match c.find? filter with
    | none => .error .ErrNoDocuments
    | some d => .ok d

/-- The smallest sort key among the given documents. -/
def minKey (key : Task → Time) : List Task → Option Time
  | [] => none
  | d :: r =>
    match minKey key r with
    | none => some (key d)
    | some m => some (min (key d) m)

/-- The predicate a query with an optional ascending sort selects by: without a
sort, the filter; with a sort, the filter together with having the smallest key
among the matching documents.  The first such document in natural order is the
one the query acts on. -/
def selects (filter : Task → Bool) (sort : Option (Task → Time)) (c : Collection) :
    Task → Bool :=
  match sort with
  | none => filter
  | some key => fun d => filter d && (minKey key (c.filter filter) == some (key d))

/-- Apply `update` to the first document satisfying `q`, in place. -/
def updateFirst (q : Task → Bool) (update : Task → Task) : List Task → List Task
  | [] => []
  | d :: r => if q d then update d :: r else d :: updateFirst q update r

/-- The driver call `FindOneAndUpdate`: one atomic find-and-modify.  `after`
is the option `ReturnDocument = After`; the default returns the document as it
was before the update. -/
def FindOneAndUpdate (fault : Option String) (c : Collection) (filter : Task → Bool)
    (sort : Option (Task → Time)) (update : Task → Task) (after : Bool) :
    Except DriverError Task × Collection :=
  match fault with
  | some msg => (.error (.failure msg), c)
  | none =>
    match c.find? (selects filter sort c) with
    | none => (.error .ErrNoDocuments, c)
    | some d =>
      (.ok (if after then update d else d), updateFirst (selects filter sort c) update c)

/-! ## The operations of `Database` -/

/-- The method `Database.CreateTask`; the times of `task` are those the caller
passes, at the resolution of `time.Time`. -/
def CreateTask (fault : Option String) (c : Collection) (task : Task) :
    Except String String × Collection :=
  if task.ID == "" then (.error "field ID is empty", c)
  else if task.Data == none then (.error "field Data is nil", c)
  else if IsZero task.CreatedAt then (.error "field CreatedAt is zero", c)
  else if task.StartedAt != none then (.error "field StartedAt is not nil", c)
  else if task.FinishedAt != none then (.error "field FinishedAt is not nil", c)
  else
    match InsertOne fault c task with
    | (.error e, c1) => (.error ("insert one: " ++ e.Error), c1)
    | (.ok id, c1) => (.ok id, c1)

/-- The method `Database.ReadTask`; it does not write to the collection. -/
def ReadTask (fault : Option String) (c : Collection) (id : String) :
    Except String (Option Task) :=
  if id == "" then .error "id is empty"
  else
    match FindOne fault c (fun d => d.ID == id) with
    | .error .ErrNoDocuments => .ok none
    | .error e => .error ("find one: " ++ e.Error)
    | .ok d => .ok (some d)

/-- The method `Database.StartTask`; `now` is the reading of `time.Now()` as
the store holds it. -/
def StartTask (fault : Option String) (now : Time) (c : Collection) :
    Except String (Option Task) × Collection :=
  let sort : Task → Time := fun d => d.CreatedAt
  let filter : Task → Bool := fun d => d.StartedAt == none
  let update : Task → Task := fun d => { d with StartedAt := some now }
  match FindOneAndUpdate fault c filter (some sort) update true with
  | (.error .ErrNoDocuments, c1) => (.ok none, c1)
  | (.error e, c1) => (.error ("find one and update: " ++ e.Error), c1)
  | (.ok d, c1) => (.ok (some d), c1)

/-- The method `Database.FinishTask`; `now` is the reading of `time.Now()` as
the store holds it. -/
def FinishTask (fault : Option String) (now : Time) (c : Collection) (id : String) :
    Except String Unit × Collection :=
  if id == "" then (.error "id is empty", c)
  else
    let filter : Task → Bool := fun d => d.ID == id
    let update : Task → Task := fun d => { d with FinishedAt := some now }
    match FindOneAndUpdate fault c filter none update false with
    | (.error e, c1) => (.error ("find one and update: " ++ e.Error), c1)
    | (.ok _, c1) => (.ok (), c1)

/-! ## The HTTP read handler -/

/-- The body a handler has written. -/
inductive Body where
  | text (s : String)
  | json (task : Option Task)
  deriving DecidableEq, Repr

/-- What a handler has written to its `http.ResponseWriter`. -/
structure Response where
  status : Nat
  contentType : String
  body : Body
  deriving DecidableEq, Repr

/-- The constant `http.StatusInternalServerError`. -/
def StatusInternalServerError : Nat := 500

/-- The constant `http.StatusOK`, the status of a response whose body is
written without a call to `WriteHeader`. -/
def StatusOK : Nat := 200

/-- The function `http.StatusText`, on the codes used here. -/
def StatusText (code : Nat) : String :=
  if code = 500 then "Internal Server Error"
  else if code = 400 then "Bad Request"
  else ""

/-- The function `http.Error`. -/
def httpError (error : String) (code : Nat) : Response :=
  ⟨code, "text/plain; charset=utf-8", .text error⟩

/-- The method `readTaskHandler.ServeHTTP`; `taskId` is `mux.Vars(r)["taskId"]`.
The handler sets the content type and encodes the task (a nil task encodes as
JSON `null`) without calling `WriteHeader`. -/
def readTaskHandler.ServeHTTP (fault : Option String) (c : Collection) (taskId : String) :
    Response :=
  match ReadTask fault c taskId with
  | .error _ => httpError (StatusText StatusInternalServerError) StatusInternalServerError
  | .ok task => ⟨StatusOK, "application/json", .json task⟩

/-! ## Operations as steps on the collection -/

/-- A call of one of the four operations of `Database`, with its arguments. -/
inductive Op where
  | CreateTask (task : Task)
  | ReadTask (id : String)
  | StartTask
  | FinishTask (id : String)
  deriving DecidableEq, Repr

/-- The collection after a call. -/
def Op.apply (fault : Option String) (now : Time) (c : Collection) : Op → Collection
  | .CreateTask task => (MongoTasks.CreateTask fault c task).2
  | .ReadTask _ => c
  | .StartTask => (MongoTasks.StartTask fault now c).2
  | .FinishTask id => (MongoTasks.FinishTask fault now c id).2

/-- A call together with the fault injected into it and its clock reading. -/
structure Event where
  fault : Option String
  now : Time
  op : Op
  deriving DecidableEq, Repr

/-- The collection after a sequence of calls, oldest first. -/
def run : List Event → Collection → Collection
  | [], c => c
  | e :: es, c => run es (e.op.apply e.fault e.now c)

/-! ## Sequential and interleaved claiming -/

/-- The documents a claim can pick: those whose `startedAt` is null. -/
def pending (d : Task) : Bool := d.StartedAt == none

/-- The tasks returned by successive calls of `StartTask`, one per clock
reading, with nothing in between. -/
def claimSeq : List Time → Collection → List Task
  | [], _ => []
  | now :: rest, c =>
    match StartTask none now c with
    | (.ok (some t), c1) => t :: claimSeq rest c1
    | (_, c1) => claimSeq rest c1

/-- Callers that each loop on `StartTask` until it returns a nil task: the
shared collection, the callers whose loop has ended, and every returned task
with the caller it was returned to, oldest first. -/
structure Pool where
  store : Collection
  stopped : List Nat
  claimed : List (Nat × Task)
  deriving DecidableEq, Repr

/-- One atomic step of an interleaving. -/
inductive Action where
  | claim (caller : Nat) (fault : Option String) (now : Time)
  | finish (fault : Option String) (now : Time) (id : String)
  deriving DecidableEq, Repr

/-- The effect of one step.  A caller whose loop has ended calls nothing; a
caller whose call fails tries again at its next turn, as the worker does
(`processTask` returns the error, the loop of the worker logs it and goes on).
A `finish` step is the `FinishTask` a worker issues after a claim. -/
def Pool.step (p : Pool) : Action → Pool
  | .claim caller fault now =>
    if caller ∈ p.stopped then p
    else
      match StartTask fault now p.store with
      | (.ok none, c1) => ⟨c1, caller :: p.stopped, p.claimed⟩
      | (.ok (some t), c1) => ⟨c1, p.stopped, p.claimed ++ [(caller, t)]⟩
      | (.error _, c1) => ⟨c1, p.stopped, p.claimed⟩
  | .finish fault now id => ⟨(FinishTask fault now p.store id).2, p.stopped, p.claimed⟩

/-- The pool after an interleaving. -/
def Pool.exec : List Action → Pool → Pool
  | [], p => p
  | a :: as, p => Pool.exec as (p.step a)

/-- The pool before any call. -/
def Pool.init (c : Collection) : Pool := ⟨c, [], []⟩

/-- The identifiers of the pending tasks, in natural order. -/
def pendingIDs (c : Collection) : List String := (c.filter pending).map (fun d => d.ID)

/-- The interleaving in which callers `0`, ..., `M - 1` take their turns one after
the other, each calling `n + 1` times. -/
def serial (n : Nat) : Nat → List Action
  | 0 => []
  | M + 1 => serial n M ++ List.replicate (n + 1) (Action.claim M none 0)

/-! ## Sample documents -/

/-- A pending task created 5 ms after the zero time. -/
def taskA : Task := ⟨"a", some [], 5000000, none, none⟩

/-- A pending task created at 3 ms. -/
def taskB : Task := ⟨"b", some [("k", "v")], 3000000, none, none⟩

/-- A task created at 4 ms and started at 6 ms. -/
def taskC : Task := ⟨"c", some [], 4000000, some 6000000, none⟩

/-- A task created at 1 ms, started at 2 ms and finished at 3 ms. -/
def taskD : Task := ⟨"d", some [], 1000000, some 2000000, some 3000000⟩

/-- A valid new task whose identifier is the one of `taskC`. -/
def taskC2 : Task := ⟨"c", some [("k", "v")], 9000000, none, none⟩

/-- A valid new task created at 3.5 ms. -/
def taskE : Task := ⟨"e", some [("k", "v")], 3500000, none, none⟩

/-- A valid new task created at the instant `time.Unix(1<<60, 0)`. -/
def taskF : Task := ⟨"f", some [], (1152921504606846976 + 62135596800) * 1000000000, none, none⟩

/-! ## Lemmas on the driver primitives and the operations -/

theorem updateFirst_split (q : Task → Bool) (u : Task → Task) :
    ∀ (c : List Task) (d : Task), c.find? q = some d →
      ∃ l1 l2, c = l1 ++ d :: l2 ∧ (∀ x ∈ l1, q x = false) ∧ q d = true ∧
        updateFirst q u c = l1 ++ u d :: l2 := by
  intro c
  induction c with
  | nil => intro d h; simp at h
  | cons x r ih =>
    intro d h
    by_cases hx : q x = true
    · have hd : x = d := by simpa [List.find?, hx] using h
      subst hd
      exact ⟨[], r, rfl, by simp, hx, by simp [updateFirst, hx]⟩
    · have hx2 : q x = false := by simpa using hx
      have h2 : r.find? q = some d := by simpa [List.find?, hx2] using h
      obtain ⟨l1, l2, hc, hl1, hqd, hu⟩ := ih d h2
      refine ⟨x :: l1, l2, by simp [hc], ?_, hqd, by simp [updateFirst, hx2, hu]⟩
      intro y hy
      rcases List.mem_cons.mp hy with rfl | hy
      · exact hx2
      · exact hl1 y hy

theorem minKey_eq_none (key : Task → Time) (l : List Task) : minKey key l = none ↔ l = [] := by
  cases l with
  | nil => simp [minKey]
  | cons d r =>
    simp only [minKey]
    cases minKey key r <;> simp

theorem minKey_le (key : Task → Time) :
    ∀ (l : List Task) (m : Time), minKey key l = some m → ∀ x ∈ l, m ≤ key x := by
  intro l
  induction l with
  | nil => intro m h; simp [minKey] at h
  | cons d r ih =>
    intro m h x hx
    simp only [minKey] at h
    cases hr : minKey key r with
    | none =>
      rw [hr] at h
      have hnil : r = [] := (minKey_eq_none key r).mp hr
      subst hnil
      have hm : key d = m := by simpa using h
      have hxd : x = d := by simpa using hx
      rw [hxd, hm]
    | some m1 =>
      rw [hr] at h
      have hm : min (key d) m1 = m := by simpa using h
      rcases List.mem_cons.mp hx with rfl | hx
      · rw [← hm]; exact min_le_left _ _
      · rw [← hm]; exact le_trans (min_le_right _ _) (ih m1 hr x hx)

theorem minKey_mem (key : Task → Time) :
    ∀ (l : List Task) (m : Time), minKey key l = some m → ∃ x ∈ l, key x = m := by
  intro l
  induction l with
  | nil => intro m h; simp [minKey] at h
  | cons d r ih =>
    intro m h
    simp only [minKey] at h
    cases hr : minKey key r with
    | none =>
      rw [hr] at h
      exact ⟨d, by simp, by simpa using h⟩
    | some m1 =>
      rw [hr] at h
      have hm : min (key d) m1 = m := by simpa using h
      by_cases hle : key d ≤ m1
      · exact ⟨d, by simp, by rw [← hm]; exact (min_eq_left hle).symm⟩
      · obtain ⟨x, hx, hxm⟩ := ih m1 hr
        have hle2 : m1 ≤ key d := le_of_lt (not_le.mp hle)
        exact ⟨x, by simp [hx], by rw [← hm, hxm]; exact (min_eq_right hle2).symm⟩

theorem StartTask_fault (msg : String) (now : Time) (c : Collection) :
    StartTask (some msg) now c = (.error ("find one and update: " ++ msg), c) := by
  simp [StartTask, FindOneAndUpdate, DriverError.Error]

theorem StartTask_idle (now : Time) (c : Collection) (h : ∀ d ∈ c, d.StartedAt ≠ none) :
    StartTask none now c = (.ok none, c) := by
  have hf : c.find? (selects (fun d => d.StartedAt == none) (some (fun d => d.CreatedAt)) c)
      = none := by
    rw [List.find?_eq_none]
    intro x hx
    simp [selects, h x hx]
  simp [StartTask, FindOneAndUpdate, hf]

theorem StartTask_pick (now : Time) (c : Collection) (h : ∃ d ∈ c, d.StartedAt = none) :
    ∃ l1 d l2, c = l1 ++ d :: l2 ∧ d.StartedAt = none ∧
      (∀ x ∈ c, x.StartedAt = none → d.CreatedAt ≤ x.CreatedAt) ∧
      StartTask none now c =
        (.ok (some { d with StartedAt := some now }),
          l1 ++ { d with StartedAt := some now } :: l2) := by
  obtain ⟨d0, hd0, hp0⟩ := h
  have hne : c.filter (fun d => d.StartedAt == none) ≠ [] := by
    intro hnil
    have : d0 ∈ c.filter (fun d => d.StartedAt == none) := by
      simp [List.mem_filter, hd0, hp0]
    rw [hnil] at this
    simp at this
  cases hm : minKey (fun d => d.CreatedAt) (c.filter (fun d => d.StartedAt == none)) with
  | none => exact absurd ((minKey_eq_none _ _).mp hm) hne
  | some m =>
    obtain ⟨x, hx, hxm⟩ := minKey_mem _ _ m hm
    have hxc : x ∈ c := (List.mem_filter.mp hx).1
    have hxp : x.StartedAt = none := by simpa using (List.mem_filter.mp hx).2
    have hsome : (c.find? (selects (fun d => d.StartedAt == none)
        (some (fun d => d.CreatedAt)) c)).isSome = true := by
      rw [List.find?_isSome]
      exact ⟨x, hxc, by simp [selects, hxp, hm, hxm]⟩
    obtain ⟨d, hd⟩ := Option.isSome_iff_exists.mp hsome
    obtain ⟨l1, l2, hc, _, hqd, hu⟩ :=
      updateFirst_split _ (fun d => { d with StartedAt := some now }) c d hd
    have hq : d.StartedAt = none ∧ m = d.CreatedAt := by
      simpa [selects, hm] using hqd
    refine ⟨l1, d, l2, hc, hq.1, ?_, ?_⟩
    · intro y hy hyp
      rw [← hq.2]
      exact minKey_le _ _ m hm y (by simp [List.mem_filter, hy, hyp])
    · simp only [StartTask, FindOneAndUpdate, hd, hu]
      simp

theorem FinishTask_fault (msg : String) (now : Time) (c : Collection) (id : String) :
    (FinishTask (some msg) now c id).2 = c := by
  unfold FinishTask
  split
  · rfl
  · simp [FindOneAndUpdate]

theorem FinishTask_hit (now : Time) (c : Collection) (id : String) (hid : id ≠ "")
    (h : ∃ d ∈ c, d.ID = id) :
    ∃ l1 d l2, c = l1 ++ d :: l2 ∧ d.ID = id ∧ (∀ x ∈ l1, x.ID ≠ id) ∧
      FinishTask none now c id =
        (.ok (), l1 ++ { d with FinishedAt := some now } :: l2) := by
  obtain ⟨d0, hd0, hid0⟩ := h
  have hsome : (c.find? (selects (fun d => d.ID == id) none c)).isSome = true := by
    rw [List.find?_isSome]
    exact ⟨d0, hd0, by simp [selects, hid0]⟩
  obtain ⟨d, hd⟩ := Option.isSome_iff_exists.mp hsome
  obtain ⟨l1, l2, hc, hl1, hqd, hu⟩ :=
    updateFirst_split _ (fun d => { d with FinishedAt := some now }) c d hd
  refine ⟨l1, d, l2, hc, by simpa [selects] using hqd, ?_, ?_⟩
  · intro x hx
    simpa [selects] using hl1 x hx
  · simp only [FinishTask, FindOneAndUpdate, hd, hu]
    simp [hid]

theorem FinishTask_miss (fault : Option String) (now : Time) (c : Collection) (id : String)
    (h : ∀ d ∈ c, d.ID ≠ id) : (FinishTask fault now c id).2 = c := by
  cases fault with
  | some msg => exact FinishTask_fault msg now c id
  | none =>
    have hf : c.find? (selects (fun d => d.ID == id) none c) = none := by
      rw [List.find?_eq_none]
      intro x hx
      simp [selects, h x hx]
    unfold FinishTask
    split
    · rfl
    · simp [FindOneAndUpdate, hf]

theorem FinishTask_empty (fault : Option String) (now : Time) (c : Collection) :
    (FinishTask fault now c "").2 = c := by
  simp [FinishTask]

theorem CreateTask_cases (fault : Option String) (c : Collection) (task : Task) :
    (CreateTask fault c task).2 = c ∨
      (task.ID ≠ "" ∧ task.StartedAt = none ∧ task.FinishedAt = none ∧
        (∀ d ∈ c, d.ID ≠ task.ID) ∧
        CreateTask fault c task = (.ok task.ID, c ++ [bsonTask task])) := by
  unfold CreateTask
  split
  · left; rfl
  split
  · left; rfl
  split
  · left; rfl
  split
  · left; rfl
  split
  · left; rfl
  rename_i h1 _ _ h4 h5
  cases fault with
  | some msg => left; simp [InsertOne]
  | none =>
    by_cases hdup : c.any (fun d => d.ID == task.ID) = true
    · left; simp [InsertOne, hdup]
    · right
      refine ⟨by simpa using h1, by simpa using h4, by simpa using h5, ?_, ?_⟩
      · intro d hd hid
        apply hdup
        rw [List.any_eq_true]
        exact ⟨d, hd, by simp [hid]⟩
      · simp [InsertOne, hdup]

theorem get_replace_cases (l1 l2 : List Task) (d e : Task) (i : Nat) (t : Task)
    (h : (l1 ++ d :: l2)[i]? = some t) :
    (i = l1.length ∧ t = d ∧ (l1 ++ e :: l2)[i]? = some e) ∨
      (i ≠ l1.length ∧ (l1 ++ e :: l2)[i]? = some t) := by
  rcases lt_trichotomy i l1.length with hlt | heq | hgt
  · right
    rw [List.getElem?_append_left hlt] at h
    rw [List.getElem?_append_left hlt]
    exact ⟨Nat.ne_of_lt hlt, h⟩
  · left
    subst heq
    rw [List.getElem?_append_right (Nat.le_refl _)] at h
    rw [List.getElem?_append_right (Nat.le_refl _)]
    simp at h
    simp [h]
  · right
    rw [List.getElem?_append_right (Nat.le_of_lt hgt)] at h
    rw [List.getElem?_append_right (Nat.le_of_lt hgt)]
    obtain ⟨k, hk⟩ : ∃ k, i - l1.length = k + 1 := ⟨i - l1.length - 1, by omega⟩
    rw [hk] at h ⊢
    exact ⟨Nat.ne_of_gt hgt, by simpa using h⟩

theorem get_append_keep (c : List Task) (e : Task) (i : Nat) (t : Task)
    (h : (c)[i]? = some t) : (c ++ [e])[i]? = some t := by
  have hlt : i < c.length := by
    by_contra hge
    rw [List.getElem?_eq_none (Nat.le_of_not_lt hge)] at h
    simp at h
  rw [List.getElem?_append_left hlt]
  exact h

theorem StartTask_cases (fault : Option String) (now : Time) (c : Collection) :
    (StartTask fault now c).2 = c ∨
      ∃ l1 d l2, c = l1 ++ d :: l2 ∧ d.StartedAt = none ∧
        (StartTask fault now c).2 = l1 ++ { d with StartedAt := some now } :: l2 := by
  cases fault with
  | some msg => left; rw [StartTask_fault]
  | none =>
    by_cases h : ∃ d ∈ c, d.StartedAt = none
    · right
      obtain ⟨l1, d, l2, hc, hp, _, hs⟩ := StartTask_pick now c h
      exact ⟨l1, d, l2, hc, hp, by rw [hs]⟩
    · left
      rw [StartTask_idle now c (by
        intro d hd hp
        exact h ⟨d, hd, hp⟩)]

theorem FinishTask_cases (fault : Option String) (now : Time) (c : Collection) (id : String) :
    (FinishTask fault now c id).2 = c ∨
      ∃ l1 d l2, c = l1 ++ d :: l2 ∧ d.ID = id ∧ (∀ x ∈ l1, x.ID ≠ id) ∧
        (FinishTask fault now c id).2 = l1 ++ { d with FinishedAt := some now } :: l2 := by
  cases fault with
  | some msg => left; exact FinishTask_fault msg now c id
  | none =>
    by_cases hid : id = ""
    · left; rw [hid]; exact FinishTask_empty none now c
    by_cases h : ∃ d ∈ c, d.ID = id
    · right
      obtain ⟨l1, d, l2, hc, hd, hl1, hs⟩ := FinishTask_hit now c id hid h
      exact ⟨l1, d, l2, hc, hd, hl1, by rw [hs]⟩
    · left
      exact FinishTask_miss none now c id (by
        intro d hd hdid
        exact h ⟨d, hd, hdid⟩)

theorem get_other_mem (l1 l2 : List Task) (d : Task) (i : Nat) (t : Task)
    (h : (l1 ++ d :: l2)[i]? = some t) (hne : i ≠ l1.length) : t ∈ l1 ∨ t ∈ l2 := by
  rcases Nat.lt_or_ge i l1.length with hlt | hge
  · left
    rw [List.getElem?_append_left hlt] at h
    exact List.getElem?_mem h
  · right
    rw [List.getElem?_append_right hge] at h
    obtain ⟨k, hk⟩ : ∃ k, i - l1.length = k + 1 := ⟨i - l1.length - 1, by omega⟩
    rw [hk] at h
    exact List.getElem?_mem (by simpa using h)

theorem ids_replace_started (l1 l2 : List Task) (d : Task) (now : Time) :
    (l1 ++ { d with StartedAt := some now } :: l2).map (fun t => t.ID)
      = (l1 ++ d :: l2).map (fun t => t.ID) := by
  simp

theorem ids_replace_finished (l1 l2 : List Task) (d : Task) (now : Time) :
    (l1 ++ { d with FinishedAt := some now } :: l2).map (fun t => t.ID)
      = (l1 ++ d :: l2).map (fun t => t.ID) := by
  simp

theorem apply_ids_nodup (fault : Option String) (now : Time) (op : Op) (c : Collection)
    (h : (c.map (fun t => t.ID)).Nodup) :
    ((op.apply fault now c).map (fun t => t.ID)).Nodup := by
  cases op with
  | CreateTask task =>
    rcases CreateTask_cases fault c task with h1 | ⟨_, _, _, hfresh, h1⟩
    · simp only [Op.apply]; rw [h1]; exact h
    · simp only [Op.apply]; rw [h1]
      rw [List.map_append, List.nodup_append]
      refine ⟨h, by simp, ?_⟩
      intro a ha hb
      obtain ⟨x, hx, hxa⟩ := List.mem_map.mp ha
      have : a = task.ID := by simpa using hb
      exact hfresh x hx (by rw [hxa, this])
  | ReadTask id => exact h
  | StartTask =>
    rcases StartTask_cases fault now c with h1 | ⟨l1, p, l2, hc, _, h1⟩
    · simp only [Op.apply]; rw [h1]; exact h
    · simp only [Op.apply]; rw [h1, ids_replace_started, ← hc]; exact h
  | FinishTask id =>
    rcases FinishTask_cases fault now c id with h1 | ⟨l1, p, l2, hc, _, _, h1⟩
    · simp only [Op.apply]; rw [h1]; exact h
    · simp only [Op.apply]; rw [h1, ids_replace_finished, ← hc]; exact h

theorem apply_ids_nonempty (fault : Option String) (now : Time) (op : Op) (c : Collection)
    (h : ∀ d ∈ c, d.ID ≠ "") : ∀ d ∈ op.apply fault now c, d.ID ≠ "" := by
  cases op with
  | CreateTask task =>
    rcases CreateTask_cases fault c task with h1 | ⟨hid, _, _, _, h1⟩
    · simp only [Op.apply]; rw [h1]; exact h
    · simp only [Op.apply]; rw [h1]
      intro d hd
      rcases List.mem_append.mp hd with hd | hd
      · exact h d hd
      · have : d = bsonTask task := by simpa using hd
        rw [this]; exact hid
  | ReadTask id => exact h
  | StartTask =>
    rcases StartTask_cases fault now c with h1 | ⟨l1, p, l2, hc, _, h1⟩
    · simp only [Op.apply]; rw [h1]; exact h
    · simp only [Op.apply]; rw [h1]
      intro d hd
      have hmem : d.ID ∈ (l1 ++ { p with StartedAt := some now } :: l2).map (fun t => t.ID) :=
        List.mem_map.mpr ⟨d, hd, rfl⟩
      rw [ids_replace_started, ← hc] at hmem
      obtain ⟨x, hx, hxd⟩ := List.mem_map.mp hmem
      have hxd2 : x.ID = d.ID := hxd
      rw [← hxd2]; exact h x hx
  | FinishTask id =>
    rcases FinishTask_cases fault now c id with h1 | ⟨l1, p, l2, hc, _, _, h1⟩
    · simp only [Op.apply]; rw [h1]; exact h
    · simp only [Op.apply]; rw [h1]
      intro d hd
      have hmem : d.ID ∈ (l1 ++ { p with FinishedAt := some now } :: l2).map (fun t => t.ID) :=
        List.mem_map.mpr ⟨d, hd, rfl⟩
      rw [ids_replace_finished, ← hc] at hmem
      obtain ⟨x, hx, hxd⟩ := List.mem_map.mp hmem
      have hxd2 : x.ID = d.ID := hxd
      rw [← hxd2]; exact h x hx

theorem apply_started_le (fault : Option String) (now : Time) (op : Op) (c : Collection)
    (bound : Time) (hnow : now ≤ bound)
    (h : ∀ d ∈ c, ∀ st, d.StartedAt = some st → st ≤ bound) :
    ∀ d ∈ op.apply fault now c, ∀ st, d.StartedAt = some st → st ≤ bound := by
  cases op with
  | CreateTask task =>
    rcases CreateTask_cases fault c task with h1 | ⟨_, hst, _, _, h1⟩
    · simp only [Op.apply]; rw [h1]; exact h
    · simp only [Op.apply]; rw [h1]
      intro d hd st hs
      rcases List.mem_append.mp hd with hd | hd
      · exact h d hd st hs
      · have : d = bsonTask task := by simpa using hd
        rw [this] at hs
        simp [bsonTask, hst] at hs
  | ReadTask id => exact h
  | StartTask =>
    rcases StartTask_cases fault now c with h1 | ⟨l1, p, l2, hc, _, h1⟩
    · simp only [Op.apply]; rw [h1]; exact h
    · simp only [Op.apply]; rw [h1]
      intro d hd st hs
      rcases List.mem_append.mp hd with hd | hd
      · exact h d (by rw [hc]; simp [hd]) st hs
      · rcases List.mem_cons.mp hd with hd | hd
        · rw [hd] at hs
          have : now = st := by simpa using hs
          rw [← this]; exact hnow
        · exact h d (by rw [hc]; simp [hd]) st hs
  | FinishTask id =>
    rcases FinishTask_cases fault now c id with h1 | ⟨l1, p, l2, hc, _, _, h1⟩
    · simp only [Op.apply]; rw [h1]; exact h
    · simp only [Op.apply]; rw [h1]
      intro d hd st hs
      rcases List.mem_append.mp hd with hd | hd
      · exact h d (by rw [hc]; simp [hd]) st hs
      · rcases List.mem_cons.mp hd with hd | hd
        · rw [hd] at hs
          exact h p (by rw [hc]; simp) st hs
        · exact h d (by rw [hc]; simp [hd]) st hs

theorem run_inv (bound : Time) :
    ∀ (evs : List Event) (c : Collection), (∀ e ∈ evs, e.now ≤ bound) →
      (c.map (fun t => t.ID)).Nodup → (∀ d ∈ c, d.ID ≠ "") →
      (∀ d ∈ c, ∀ st, d.StartedAt = some st → st ≤ bound) →
      ((run evs c).map (fun t => t.ID)).Nodup ∧ (∀ d ∈ run evs c, d.ID ≠ "") ∧
        (∀ d ∈ run evs c, ∀ st, d.StartedAt = some st → st ≤ bound) := by
  intro evs
  induction evs with
  | nil => intro c _ h1 h2 h3; exact ⟨h1, h2, h3⟩
  | cons e es ih =>
    intro c hclock h1 h2 h3
    simp only [run]
    exact ih _ (fun e1 he1 => hclock e1 (List.mem_cons_of_mem _ he1))
      (apply_ids_nodup e.fault e.now e.op c h1)
      (apply_ids_nonempty e.fault e.now e.op c h2)
      (apply_started_le e.fault e.now e.op c bound (hclock e (List.mem_cons_self _ _)) h3)

theorem filter_pending_claimed (l1 l2 : List Task) (d : Task) (now : Time) :
    (l1 ++ { d with StartedAt := some now } :: l2).filter pending
      = l1.filter pending ++ l2.filter pending := by
  simp [List.filter_append, List.filter_cons, pending]

theorem filter_pending_split (l1 l2 : List Task) (d : Task) (hp : d.StartedAt = none) :
    (l1 ++ d :: l2).filter pending = l1.filter pending ++ d :: l2.filter pending := by
  simp [List.filter_append, List.filter_cons, pending, hp]

theorem filter_pending_nil (c : Collection) (h : ∀ d ∈ c, d.StartedAt ≠ none) :
    c.filter pending = [] := by
  rw [List.filter_eq_nil_iff]
  intro d hd
  simp [pending, h d hd]

theorem claimSeq_idle (now : Time) (rest : List Time) (c : Collection)
    (h : ∀ d ∈ c, d.StartedAt ≠ none) : claimSeq (now :: rest) c = claimSeq rest c := by
  simp only [claimSeq, StartTask_idle now c h]

theorem claimSeq_pick (now : Time) (rest : List Time) (c c1 : Collection) (t : Task)
    (h : StartTask none now c = (.ok (some t), c1)) :
    claimSeq (now :: rest) c = t :: claimSeq rest c1 := by
  simp only [claimSeq, h]

theorem claimSeq_mem :
    ∀ (nows : List Time) (c : Collection) (t : Task), t ∈ claimSeq nows c →
      t.CreatedAt ∈ (c.filter pending).map (fun d => d.CreatedAt) := by
  intro nows
  induction nows with
  | nil => intro c t h; simp [claimSeq] at h
  | cons now rest ih =>
    intro c t h
    by_cases hp : ∃ d ∈ c, d.StartedAt = none
    · obtain ⟨l1, d, l2, hc, hd, _, hs⟩ := StartTask_pick now c hp
      rw [claimSeq_pick now rest c _ _ hs] at h
      rw [hc, filter_pending_split l1 l2 d hd]
      rcases List.mem_cons.mp h with h | h
      · rw [h]; simp
      · have := ih _ t h
        rw [filter_pending_claimed] at this
        simp only [List.map_append, List.mem_append] at this
        simp only [List.map_append, List.map_cons, List.mem_append, List.mem_cons]
        rcases this with h1 | h2
        · exact Or.inl h1
        · exact Or.inr (Or.inr h2)
    · have hidle : ∀ d ∈ c, d.StartedAt ≠ none := fun d hd hpd => hp ⟨d, hd, hpd⟩
      rw [claimSeq_idle now rest c hidle] at h
      exact ih c t h

theorem pendingIDs_claimed (l1 l2 : List Task) (d : Task) (now : Time) :
    pendingIDs (l1 ++ { d with StartedAt := some now } :: l2)
      = pendingIDs l1 ++ pendingIDs l2 := by
  unfold pendingIDs
  rw [filter_pending_claimed, List.map_append]

theorem pendingIDs_split (l1 l2 : List Task) (d : Task) (hp : d.StartedAt = none) :
    pendingIDs (l1 ++ d :: l2) = pendingIDs l1 ++ d.ID :: pendingIDs l2 := by
  unfold pendingIDs
  rw [filter_pending_split l1 l2 d hp, List.map_append, List.map_cons]

theorem pendingIDs_finished (l1 l2 : List Task) (d : Task) (now : Time) :
    pendingIDs (l1 ++ { d with FinishedAt := some now } :: l2) = pendingIDs (l1 ++ d :: l2) := by
  simp [pendingIDs, List.filter_append, List.filter_cons, pending]
  split <;> simp

theorem pendingIDs_FinishTask (fault : Option String) (now : Time) (c : Collection)
    (id : String) : pendingIDs (FinishTask fault now c id).2 = pendingIDs c := by
  rcases FinishTask_cases fault now c id with h | ⟨l1, p, l2, hc, _, _, h⟩
  · rw [h]
  · rw [h, pendingIDs_finished, ← hc]

theorem Pool.step_inv (ids0 : List String) (p : Pool) (a : Action)
    (h1 : (p.claimed.map (fun e => e.2.ID) ++ pendingIDs p.store).Perm ids0)
    (h2 : p.stopped ≠ [] → pendingIDs p.store = []) :
    ((p.step a).claimed.map (fun e => e.2.ID) ++ pendingIDs (p.step a).store).Perm ids0 ∧
      ((p.step a).stopped ≠ [] → pendingIDs (p.step a).store = []) := by
  cases a with
  | finish fault now id =>
    simp only [Pool.step, pendingIDs_FinishTask]
    exact ⟨h1, h2⟩
  | claim caller fault now =>
    by_cases hstop : caller ∈ p.stopped
    · simp only [Pool.step, hstop, if_true]
      exact ⟨h1, h2⟩
    · cases fault with
      | some msg =>
        simp only [Pool.step, hstop, if_false, StartTask_fault]
        exact ⟨h1, h2⟩
      | none =>
        by_cases hp : ∃ d ∈ p.store, d.StartedAt = none
        · obtain ⟨l1, d, l2, hc, hd, _, hs⟩ := StartTask_pick now p.store hp
          simp only [Pool.step, hstop, if_false, hs]
          rw [hc, pendingIDs_split l1 l2 d hd] at h1 h2
          constructor
          · rw [pendingIDs_claimed]
            refine List.Perm.trans ?_ h1
            simp only [List.map_append, List.map_cons, List.map_nil, List.append_assoc,
              List.singleton_append]
            exact List.Perm.append_left _ List.perm_middle.symm
          · intro hne
            have := h2 hne
            simp at this
        · have hidle : ∀ d ∈ p.store, d.StartedAt ≠ none := fun d hd hpd => hp ⟨d, hd, hpd⟩
          simp only [Pool.step, hstop, if_false, StartTask_idle now p.store hidle]
          refine ⟨h1, fun _ => ?_⟩
          simp [pendingIDs, filter_pending_nil p.store hidle]

theorem Pool.exec_inv (ids0 : List String) :
    ∀ (sched : List Action) (p : Pool),
      (p.claimed.map (fun e => e.2.ID) ++ pendingIDs p.store).Perm ids0 →
      (p.stopped ≠ [] → pendingIDs p.store = []) →
      ((Pool.exec sched p).claimed.map (fun e => e.2.ID)
          ++ pendingIDs (Pool.exec sched p).store).Perm ids0 ∧
        ((Pool.exec sched p).stopped ≠ [] → pendingIDs (Pool.exec sched p).store = []) := by
  intro sched
  induction sched with
  | nil => intro p h1 h2; exact ⟨h1, h2⟩
  | cons a as ih =>
    intro p h1 h2
    obtain ⟨k1, k2⟩ := Pool.step_inv ids0 p a h1 h2
    exact ih (p.step a) k1 k2

theorem Pool.exec_append (as bs : List Action) :
    ∀ p : Pool, Pool.exec (as ++ bs) p = Pool.exec bs (Pool.exec as p) := by
  induction as with
  | nil => intro p; rfl
  | cons a as ih => intro p; simp only [List.cons_append, Pool.exec]; exact ih _

theorem Pool.exec_cons (a : Action) (as : List Action) (p : Pool) :
    Pool.exec (a :: as) p = Pool.exec as (p.step a) := rfl

theorem Pool.step_mono (p : Pool) (a : Action) :
    (∀ k, k ∈ p.stopped → k ∈ (p.step a).stopped) ∧
      ((p.step a).store.filter pending).length ≤ (p.store.filter pending).length := by
  cases a with
  | finish fault now id =>
    simp only [Pool.step]
    refine ⟨fun k hk => hk, ?_⟩
    have h := congrArg List.length (pendingIDs_FinishTask fault now p.store id)
    simpa [pendingIDs] using Nat.le_of_eq h
  | claim caller fault now =>
    by_cases hstop : caller ∈ p.stopped
    · simp only [Pool.step, hstop, if_true]
      exact ⟨fun k hk => hk, Nat.le_refl _⟩
    · cases fault with
      | some msg =>
        simp only [Pool.step, hstop, if_false, StartTask_fault]
        exact ⟨fun k hk => hk, Nat.le_refl _⟩
      | none =>
        by_cases hp : ∃ d ∈ p.store, d.StartedAt = none
        · obtain ⟨l1, d, l2, hc, hd, _, hs⟩ := StartTask_pick now p.store hp
          simp only [Pool.step, hstop, if_false, hs]
          refine ⟨fun k hk => hk, ?_⟩
          rw [filter_pending_claimed, hc, filter_pending_split l1 l2 d hd]
          simp only [List.length_append, List.length_cons]
          omega
        · have hidle : ∀ d ∈ p.store, d.StartedAt ≠ none := fun d hd hpd => hp ⟨d, hd, hpd⟩
          simp only [Pool.step, hstop, if_false, StartTask_idle now p.store hidle]
          exact ⟨fun k hk => List.mem_cons_of_mem _ hk, Nat.le_refl _⟩

theorem Pool.exec_mono :
    ∀ (sched : List Action) (p : Pool),
      (∀ k, k ∈ p.stopped → k ∈ (Pool.exec sched p).stopped) ∧
        ((Pool.exec sched p).store.filter pending).length ≤ (p.store.filter pending).length := by
  intro sched
  induction sched with
  | nil => intro p; exact ⟨fun k hk => hk, Nat.le_refl _⟩
  | cons a as ih =>
    intro p
    obtain ⟨s1, s2⟩ := Pool.step_mono p a
    obtain ⟨e1, e2⟩ := ih (p.step a)
    exact ⟨fun k hk => e1 k (s1 k hk), Nat.le_trans e2 s2⟩

theorem Pool.exec_replicate_stops (k : Nat) (now : Time) :
    ∀ (n : Nat) (p : Pool), (p.store.filter pending).length ≤ n →
      k ∈ (Pool.exec (List.replicate (n + 1) (Action.claim k none now)) p).stopped := by
  intro n
  induction n with
  | zero =>
    intro p hlen
    have hnil : p.store.filter pending = [] := List.length_eq_zero.mp (Nat.le_zero.mp hlen)
    have hidle : ∀ d ∈ p.store, d.StartedAt ≠ none := by
      intro d hd hpd
      have : d ∈ p.store.filter pending := List.mem_filter.mpr ⟨hd, by simp [pending, hpd]⟩
      rw [hnil] at this
      simp at this
    by_cases hstop : k ∈ p.stopped
    · simp [Pool.exec, Pool.step, hstop]
    · simp [Pool.exec, Pool.step, hstop, StartTask_idle now p.store hidle]
  | succ n ih =>
    intro p hlen
    rw [List.replicate_succ, Pool.exec_cons]
    by_cases hstop : k ∈ p.stopped
    · exact (Pool.exec_mono _ _).1 k ((Pool.step_mono p _).1 k hstop)
    · by_cases hp : ∃ d ∈ p.store, d.StartedAt = none
      · obtain ⟨l1, d, l2, hc, hd, _, hs⟩ := StartTask_pick now p.store hp
        apply ih
        simp only [Pool.step, hstop, if_false, hs]
        rw [filter_pending_claimed]
        rw [hc, filter_pending_split l1 l2 d hd] at hlen
        simp only [List.length_append, List.length_cons] at hlen ⊢
        omega
      · have hidle : ∀ d ∈ p.store, d.StartedAt ≠ none := fun d hd hpd => hp ⟨d, hd, hpd⟩
        apply (Pool.exec_mono _ _).1 k
        simp [Pool.step, hstop, StartTask_idle now p.store hidle]

/-- Exhaustion is reached: on the serial interleaving every one of the `M` callers
ends its loop. -/
theorem Pool.exec_serial_stops (c : Collection) :
    ∀ (M k : Nat), k < M →
      k ∈ (Pool.exec (serial (c.filter pending).length M) (Pool.init c)).stopped := by
  intro M
  induction M with
  | zero => intro k hk; omega
  | succ M ih =>
    intro k hk
    simp only [serial]
    rw [Pool.exec_append]
    rcases Nat.lt_or_ge k M with hlt | hge
    · exact (Pool.exec_mono _ _).1 k (ih k hlt)
    · have hkM : k = M := by omega
      subst hkM
      exact Pool.exec_replicate_stops k 0 _ _ (Pool.exec_mono _ (Pool.init c)).2

/-! ## Lemmas on the encoding of instants -/

theorem NewDateTimeFromTime_eq (t : Int) :
    NewDateTimeFromTime t = wrapInt64 (t / 1000000 - 62135596800000) := by
  unfold NewDateTimeFromTime Time.Unix Time.Nanosecond wrapInt64
  omega

theorem DateTime.Time_eq (d : Int) : DateTime.Time d = (d + 62135596800000) * 1000000 := by
  have h := Int.tdiv_add_tmod' d 1000
  show ((Int.tdiv d 1000 + 62135596800) * 1000000000 + Int.tmod d 1000 * 1000000 : Int)
    = (d + 62135596800000) * 1000000
  omega

theorem bsonTime_of_inRange (t : Int)
    (h1 : -9223372036854775808 ≤ t / 1000000 - 62135596800000)
    (h2 : t / 1000000 - 62135596800000 < 9223372036854775808) :
    bsonTime t = t - t % 1000000 := by
  unfold bsonTime
  rw [DateTime.Time_eq, NewDateTimeFromTime_eq]
  unfold wrapInt64
  show (((t / 1000000 - 62135596800000 + 9223372036854775808) % 18446744073709551616
    - 9223372036854775808 + 62135596800000) * 1000000 : Int) = t - t % 1000000
  omega

theorem sub_mod_eq_self_iff (t : Int) : t - t % 1000000 = t ↔ t % 1000000 = 0 := by
  omega

/-! ## Completion under a clock that does not run backwards -/

/-- With clock readings that are never later than the reading of the completing
call, the completion of a stored task does not precede its start. -/
theorem FinishTask_after_run (evs : List Event) (now : Time) (d : Task)
    (hclock : ∀ e ∈ evs, e.now ≤ now) (hd : d ∈ run evs []) :
    ∃ l1 l2, run evs [] = l1 ++ d :: l2 ∧
      FinishTask none now (run evs []) d.ID =
        (.ok (), l1 ++ ⟨d.ID, d.Data, d.CreatedAt, d.StartedAt, some now⟩ :: l2) ∧
      ∀ st, d.StartedAt = some st → st ≤ now := by
  obtain ⟨hnodup, hne, hle⟩ := run_inv now evs [] hclock (by simp) (by simp) (by simp)
  obtain ⟨l1, p, l2, hc, hpid, _, hs⟩ :=
    FinishTask_hit now (run evs []) d.ID (hne d hd) ⟨d, hd, rfl⟩
  have hp : p ∈ run evs [] := by rw [hc]; simp
  have hpd : p = d := List.inj_on_of_nodup_map hnodup hp hd hpid
  subst hpd
  exact ⟨l1, l2, hc, hs, hle p hd⟩

/-! ## Claim of the oldest pending task -/

/-- C1: when some stored task has no start time and the call is not failed by the
environment, `StartTask` picks a pending task `d` whose `createdAt` is smallest among
the pending ones, replaces it in place by the same record with `startedAt` set to the
current time, leaves every other document as it was, and returns that updated record
(same id, data and `createdAt`). -/
theorem StartTask_claims_oldest_pending (now : Time) (c : Collection)
    (h : ∃ d ∈ c, d.StartedAt = none) :
    ∃ l1 d l2, c = l1 ++ d :: l2 ∧ d.StartedAt = none ∧
      (∀ x ∈ c, x.StartedAt = none → d.CreatedAt ≤ x.CreatedAt) ∧
      StartTask none now c =
        (.ok (some ⟨d.ID, d.Data, d.CreatedAt, some now, d.FinishedAt⟩),
          l1 ++ ⟨d.ID, d.Data, d.CreatedAt, some now, d.FinishedAt⟩ :: l2) :=
  StartTask_pick now c h

/-- Of two pending tasks and a started one, the claim at 10 ms applies. -/
theorem StartTask_claims_oldest_pending_witness :
    (∃ d ∈ [taskA, taskB, taskC], d.StartedAt = none) ∧
    ∃ l1 d l2, [taskA, taskB, taskC] = l1 ++ d :: l2 ∧ d.StartedAt = none ∧
      (∀ x ∈ [taskA, taskB, taskC], x.StartedAt = none → d.CreatedAt ≤ x.CreatedAt) ∧
      StartTask none 10000000 [taskA, taskB, taskC] =
        (.ok (some ⟨d.ID, d.Data, d.CreatedAt, some 10000000, d.FinishedAt⟩),
          l1 ++ ⟨d.ID, d.Data, d.CreatedAt, some 10000000, d.FinishedAt⟩ :: l2) :=
  ⟨⟨taskA, by simp, rfl⟩,
    StartTask_claims_oldest_pending 10000000 [taskA, taskB, taskC] ⟨taskA, by simp, rfl⟩⟩

/-! ## Interleaved claiming -/

/-- C2: callers loop on `StartTask` over a collection with distinct ids, their calls
interleaved in any order as atomic steps (failed calls and `FinishTask` calls may
occur in between).  Once each of the `M ≥ 1` callers has seen a nil task, the ids of
the returned tasks are exactly the ids of the tasks pending at the start, each
returned once. -/
theorem every_pending_task_claimed_exactly_once (c : Collection) (M : Nat)
    (sched : List Action) (hids : (c.map (fun d => d.ID)).Nodup) (hM : 1 ≤ M)
    (hdone : ∀ k, k < M → k ∈ (Pool.exec sched (Pool.init c)).stopped) :
    ((Pool.exec sched (Pool.init c)).claimed.map (fun e => e.2.ID)).Perm (pendingIDs c) ∧
      ((Pool.exec sched (Pool.init c)).claimed.map (fun e => e.2.ID)).Nodup := by
  obtain ⟨k1, k2⟩ := Pool.exec_inv (pendingIDs c) sched (Pool.init c)
    (by simp [Pool.init]) (by simp [Pool.init])
  have hne : (Pool.exec sched (Pool.init c)).stopped ≠ [] := by
    intro hnil
    have := hdone 0 hM
    rw [hnil] at this
    simp at this
  rw [k2 hne, List.append_nil] at k1
  refine ⟨k1, ?_⟩
  rw [k1.nodup_iff]
  exact List.Nodup.sublist ((List.filter_sublist c).map _) hids

/-- Two callers over two pending tasks, with a completion in between. -/
theorem every_pending_task_claimed_exactly_once_witness :
    ([taskA, taskB, taskC].map (fun d => d.ID)).Nodup ∧ 1 ≤ 2 ∧
    (∀ k, k < 2 → k ∈ (Pool.exec
      [.claim 0 none 10000000, .claim 1 none 11000000, .finish none 12000000 "b", .claim 0 none 13000000,
        .claim 1 none 14000000] (Pool.init [taskA, taskB, taskC])).stopped) ∧
    ((Pool.exec
      [.claim 0 none 10000000, .claim 1 none 11000000, .finish none 12000000 "b", .claim 0 none 13000000,
        .claim 1 none 14000000] (Pool.init [taskA, taskB, taskC])).claimed.map
        (fun e => e.2.ID)).Perm (pendingIDs [taskA, taskB, taskC]) ∧
    ((Pool.exec
      [.claim 0 none 10000000, .claim 1 none 11000000, .finish none 12000000 "b", .claim 0 none 13000000,
        .claim 1 none 14000000] (Pool.init [taskA, taskB, taskC])).claimed.map
        (fun e => e.2.ID)).Nodup :=
  ⟨by decide, by decide, by decide,
    every_pending_task_claimed_exactly_once [taskA, taskB, taskC] 2
      [.claim 0 none 10000000, .claim 1 none 11000000, .finish none 12000000 "b", .claim 0 none 13000000,
        .claim 1 none 14000000] (by decide) (by decide) (by decide)⟩

/-! ## Sequential claiming -/

/-- C3: when the pending tasks have pairwise distinct `createdAt`, the tasks returned
by successive `StartTask` calls with nothing in between come in strictly ascending
`createdAt` order, and there are as many of them as there are calls, up to the number
of pending tasks. -/
theorem claimSeq_ascending :
    ∀ (nows : List Time) (c : Collection),
      ((c.filter pending).map (fun d => d.CreatedAt)).Nodup →
      ((claimSeq nows c).map (fun t => t.CreatedAt)).Pairwise (fun a b => a < b) ∧
        (claimSeq nows c).length = min nows.length (c.filter pending).length := by
  intro nows
  induction nows with
  | nil => intro c _; simp [claimSeq]
  | cons now rest ih =>
    intro c hdistinct
    by_cases hp : ∃ d ∈ c, d.StartedAt = none
    · obtain ⟨l1, d, l2, hc, hd, hmin, hs⟩ := StartTask_pick now c hp
      rw [claimSeq_pick now rest c _ _ hs]
      have hsplit := filter_pending_split l1 l2 d hd
      rw [hc, hsplit, List.map_append, List.map_cons] at hdistinct
      have hmid := List.nodup_middle.mp hdistinct
      rw [List.nodup_cons] at hmid
      have hrest : (((l1 ++ { d with StartedAt := some now } :: l2).filter pending).map
          (fun d => d.CreatedAt)).Nodup := by
        rw [filter_pending_claimed, List.map_append]
        exact hmid.2
      obtain ⟨ih1, ih2⟩ := ih _ hrest
      constructor
      · rw [List.map_cons, List.pairwise_cons]
        refine ⟨?_, ih1⟩
        intro b hb
        obtain ⟨t, ht, htb⟩ := List.mem_map.mp hb
        have hmem := claimSeq_mem rest _ t ht
        rw [filter_pending_claimed, List.map_append] at hmem
        have hne : d.CreatedAt ≠ t.CreatedAt := by
          intro heq
          apply hmid.1
          rw [heq]
          exact hmem
        have hle : d.CreatedAt ≤ t.CreatedAt := by
          rcases List.mem_append.mp hmem with h1 | h1
          · obtain ⟨x, hx, hxt⟩ := List.mem_map.mp h1
            have hx2 := List.mem_filter.mp hx
            have hxt2 : x.CreatedAt = t.CreatedAt := hxt
            rw [← hxt2]
            exact hmin x (by rw [hc]; simp [hx2.1]) (by simpa [pending] using hx2.2)
          · obtain ⟨x, hx, hxt⟩ := List.mem_map.mp h1
            have hx2 := List.mem_filter.mp hx
            have hxt2 : x.CreatedAt = t.CreatedAt := hxt
            rw [← hxt2]
            exact hmin x (by rw [hc]; simp [hx2.1]) (by simpa [pending] using hx2.2)
        rw [← htb]
        exact lt_of_le_of_ne hle hne
      · rw [List.length_cons, ih2, filter_pending_claimed, hc, hsplit]
        simp only [List.length_append, List.length_cons]
        omega
    · have hidle : ∀ d ∈ c, d.StartedAt ≠ none := fun d hd hpd => hp ⟨d, hd, hpd⟩
      rw [claimSeq_idle now rest c hidle]
      obtain ⟨ih1, ih2⟩ := ih c hdistinct
      refine ⟨ih1, ?_⟩
      rw [ih2, filter_pending_nil c hidle]
      simp

/-- Three successive claims over two pending tasks and a started one. -/
theorem claimSeq_ascending_witness :
    (([taskA, taskB, taskC].filter pending).map (fun d => d.CreatedAt)).Nodup ∧
    ((claimSeq [10000000, 11000000, 12000000] [taskA, taskB, taskC]).map (fun t => t.CreatedAt)).Pairwise
      (fun a b => a < b) ∧
    (claimSeq [10000000, 11000000, 12000000] [taskA, taskB, taskC]).length
      = min [10000000, 11000000, 12000000].length ([taskA, taskB, taskC].filter pending).length :=
  ⟨by decide, claimSeq_ascending [10000000, 11000000, 12000000] [taskA, taskB, taskC] (by decide)⟩

/-! ## Validation in `CreateTask` -/

/-- C4: a task with an empty id, nil data, zero `createdAt`, or a present `startedAt`
or `finishedAt` is rejected by `CreateTask` with an error message naming a field that
is indeed offending; the collection is unchanged and the outcome does not depend on
the state of the connection, so the store is not contacted. -/
theorem CreateTask_rejects_invalid (fault : Option String) (c : Collection) (task : Task)
    (h : task.ID = "" ∨ task.Data = none ∨ IsZero task.CreatedAt = true ∨
      task.StartedAt ≠ none ∨ task.FinishedAt ≠ none) :
    (CreateTask fault c task).2 = c ∧
    CreateTask fault c task = CreateTask none c task ∧
    (((CreateTask fault c task).1 = .error "field ID is empty" ∧ task.ID = "") ∨
     ((CreateTask fault c task).1 = .error "field Data is nil" ∧ task.Data = none) ∨
     ((CreateTask fault c task).1 = .error "field CreatedAt is zero" ∧
        IsZero task.CreatedAt = true) ∨
     ((CreateTask fault c task).1 = .error "field StartedAt is not nil" ∧
        task.StartedAt ≠ none) ∨
     ((CreateTask fault c task).1 = .error "field FinishedAt is not nil" ∧
        task.FinishedAt ≠ none)) := by
  by_cases h1 : task.ID = ""
  · simp [CreateTask, h1]
  by_cases h2 : task.Data = none
  · simp [CreateTask, h1, h2]
  by_cases h3 : IsZero task.CreatedAt = true
  · simp [CreateTask, h1, h2, h3]
  by_cases h4 : task.StartedAt = none
  · by_cases h5 : task.FinishedAt = none
    · rcases h with h | h | h | h | h
      · exact absurd h h1
      · exact absurd h h2
      · exact absurd h h3
      · exact absurd h4 h
      · exact absurd h5 h
    · simp [CreateTask, h1, h2, h3, h4, h5]
  · simp [CreateTask, h1, h2, h3, h4]

/-- A task that is already started is rejected, whatever the connection does. -/
theorem CreateTask_rejects_invalid_witness :
    (taskC.ID = "" ∨ taskC.Data = none ∨ IsZero taskC.CreatedAt = true ∨
      taskC.StartedAt ≠ none ∨ taskC.FinishedAt ≠ none) ∧
    (CreateTask (some "timeout") [taskA] taskC).2 = [taskA] ∧
    (CreateTask (some "timeout") [taskA] taskC).1 = .error "field StartedAt is not nil" := by
  have h := CreateTask_rejects_invalid (some "timeout") [taskA] taskC
    (Or.inr (Or.inr (Or.inr (Or.inl (by decide)))))
  exact ⟨Or.inr (Or.inr (Or.inr (Or.inl (by decide)))), h.1, rfl⟩

/-! ## Create, then read -/

/-- C5, counterexample, in three parts.  A valid task with a fresh id and a
`createdAt` of 3.5 ms after the zero time is created, and reads back with a
`createdAt` of 3 ms.  A valid task with a fresh id and the `createdAt`
`time.Unix(1<<60, 0)` reads back with a `createdAt` before the zero time, the
millisecond count having wrapped.  A valid task whose id is already stored is
rejected by the insert, and the read returns the older record, which is started
and has other data. -/
theorem CreateTask_ReadTask_not_the_input :
    ((taskE.ID ≠ "" ∧ taskE.Data ≠ none ∧ IsZero taskE.CreatedAt = false ∧
        taskE.StartedAt = none ∧ taskE.FinishedAt = none) ∧
      (∀ d ∈ [taskC], d.ID ≠ taskE.ID) ∧
      CreateTask none [taskC] taskE =
        (.ok "e", [taskC, ⟨"e", some [("k", "v")], 3000000, none, none⟩]) ∧
      ReadTask none (CreateTask none [taskC] taskE).2 taskE.ID =
        .ok (some ⟨"e", some [("k", "v")], 3000000, none, none⟩) ∧
      taskE.CreatedAt = 3500000) ∧
    ((taskF.ID ≠ "" ∧ taskF.Data ≠ none ∧ IsZero taskF.CreatedAt = false ∧
        taskF.StartedAt = none ∧ taskF.FinishedAt = none) ∧
      CreateTask none [] taskF =
        (.ok "f", [⟨"f", some [], -9223309901257975808000000, none, none⟩]) ∧
      ReadTask none (CreateTask none [] taskF).2 taskF.ID =
        .ok (some ⟨"f", some [], -9223309901257975808000000, none, none⟩) ∧
      taskF.CreatedAt = 1152921566742443776000000000) ∧
    ((taskC2.ID ≠ "" ∧ taskC2.Data ≠ none ∧ IsZero taskC2.CreatedAt = false ∧
        taskC2.StartedAt = none ∧ taskC2.FinishedAt = none) ∧
      (∃ e, CreateTask none [taskA, taskC] taskC2 = (.error e, [taskA, taskC])) ∧
      ReadTask none (CreateTask none [taskA, taskC] taskC2).2 taskC2.ID = .ok (some taskC) ∧
      taskC.StartedAt ≠ none ∧ taskC.Data ≠ taskC2.Data) :=
  ⟨⟨by decide, by decide, rfl, rfl, rfl⟩, ⟨by decide, rfl, rfl, rfl⟩,
    ⟨by decide, ⟨_, rfl⟩, rfl, by decide, by decide⟩⟩

/-- C5, amended: for a valid task whose id is not yet stored, with both store calls
not failed by the environment, `CreateTask` returns the input id and a following
`ReadTask` of that id returns a task with `startedAt` and `finishedAt` absent, with
the id and the data of the input, and with the `createdAt` of the input as the store
holds it.  When the millisecond count of the input since the Unix epoch fits `int64`
that is the input cut down to whole milliseconds: equal to the input if and only if
the input is a whole number of milliseconds. -/
theorem CreateTask_then_ReadTask (c : Collection) (task : Task)
    (hid : task.ID ≠ "") (hdata : task.Data ≠ none) (hcreated : IsZero task.CreatedAt = false)
    (hstarted : task.StartedAt = none) (hfinished : task.FinishedAt = none)
    (hfresh : ∀ d ∈ c, d.ID ≠ task.ID) :
    (CreateTask none c task).1 = .ok task.ID ∧
    ∃ r, ReadTask none (CreateTask none c task).2 task.ID = .ok (some r) ∧
      r.StartedAt = none ∧ r.FinishedAt = none ∧
      r.ID = task.ID ∧ r.Data = task.Data ∧ r.CreatedAt = bsonTime task.CreatedAt ∧
      (-9223372036854775808 ≤ task.CreatedAt / 1000000 - 62135596800000 →
        task.CreatedAt / 1000000 - 62135596800000 < 9223372036854775808 →
        r.CreatedAt = task.CreatedAt - task.CreatedAt % 1000000 ∧
        (r.CreatedAt = task.CreatedAt ↔ task.CreatedAt % 1000000 = 0)) := by
  have hany : c.any (fun d => d.ID == task.ID) = false := by
    rw [List.any_eq_false]
    intro d hd
    simpa using hfresh d hd
  have hcreate : CreateTask none c task = (.ok task.ID, c ++ [bsonTask task]) := by
    simp [CreateTask, InsertOne, hid, hdata, hcreated, hstarted, hfinished, hany]
  have hfind : (c ++ [bsonTask task]).find? (fun d => d.ID == task.ID)
      = some (bsonTask task) := by
    rw [List.find?_append]
    have : c.find? (fun d => d.ID == task.ID) = none := by
      rw [List.find?_eq_none]
      intro d hd
      simpa using hfresh d hd
    simp [this, bsonTask]
  refine ⟨by rw [hcreate], bsonTask task, ?_, by simp [bsonTask, hstarted],
    by simp [bsonTask, hfinished], rfl, rfl, rfl, ?_⟩
  · rw [hcreate]
    simp [ReadTask, FindOne, hid, hfind]
  · intro h1 h2
    have hcut : (bsonTask task).CreatedAt = task.CreatedAt - task.CreatedAt % 1000000 :=
      bsonTime_of_inRange task.CreatedAt h1 h2
    refine ⟨hcut, ?_⟩
    rw [hcut]
    exact sub_mod_eq_self_iff task.CreatedAt

/-- Creating the sample task of 3.5 ms next to a started one, then reading it. -/
theorem CreateTask_then_ReadTask_witness :
    (taskE.ID ≠ "" ∧ taskE.Data ≠ none ∧ IsZero taskE.CreatedAt = false ∧
      taskE.StartedAt = none ∧ taskE.FinishedAt = none ∧ ∀ d ∈ [taskC], d.ID ≠ taskE.ID) ∧
    (CreateTask none [taskC] taskE).1 = .ok "e" ∧
    ∃ r, ReadTask none (CreateTask none [taskC] taskE).2 "e" = .ok (some r) ∧
      r.StartedAt = none ∧ r.FinishedAt = none ∧
      r.ID = "e" ∧ r.Data = some [("k", "v")] ∧ r.CreatedAt = 3000000 := by
  obtain ⟨h1, r, h2, h3, h4, h5, h6, _, h8⟩ :=
    CreateTask_then_ReadTask [taskC] taskE (by decide) (by decide) (by decide) rfl rfl
      (by decide)
  exact ⟨by decide, h1, r, h2, h3, h4, h5, h6, (h8 (by decide) (by decide)).1⟩

/-! ## Nothing to claim -/

/-- C6: when no stored task is pending (the empty collection included) and the call
is not failed by the environment, `StartTask` returns a nil task with a nil error and
the collection is unchanged. -/
theorem StartTask_none_when_nothing_pending (now : Time) (c : Collection)
    (h : ∀ d ∈ c, d.StartedAt ≠ none) :
    StartTask none now c = (.ok none, c) :=
  StartTask_idle now c h

/-- A collection holding a started and a finished task has nothing to claim. -/
theorem StartTask_none_when_nothing_pending_witness :
    (∀ d ∈ [taskC, taskD], d.StartedAt ≠ none) ∧
      StartTask none 10000000 [taskC, taskD] = (.ok none, [taskC, taskD]) :=
  ⟨by decide, StartTask_none_when_nothing_pending 10000000 [taskC, taskD] (by decide)⟩

/-! ## Reading an unknown id over HTTP -/

/-- C7, counterexample: reading the unknown id "z" answers with status 200, content
type JSON and the body `null`, not with status 500. -/
theorem readTaskHandler_unknown_id_200 :
    "z" ≠ "" ∧ (∀ d ∈ [taskA, taskC], d.ID ≠ "z") ∧
    readTaskHandler.ServeHTTP none [taskA, taskC] "z" = ⟨200, "application/json", .json none⟩ ∧
    (readTaskHandler.ServeHTTP none [taskA, taskC] "z").status ≠ 500 :=
  ⟨by decide, by decide, rfl, by decide⟩

/-- C7, amended: for a non-empty id that matches no stored task the read handler
answers 200 with the JSON body `null` when the lookup itself succeeds, and 500 only
when the lookup is failed by the environment. -/
theorem readTaskHandler_unknown_id (c : Collection) (id : String) (hid : id ≠ "")
    (hunknown : ∀ d ∈ c, d.ID ≠ id) :
    readTaskHandler.ServeHTTP none c id = ⟨200, "application/json", .json none⟩ ∧
    ∀ msg, (readTaskHandler.ServeHTTP (some msg) c id).status = 500 := by
  have hfind : c.find? (fun d => d.ID == id) = none := by
    rw [List.find?_eq_none]
    intro d hd
    simpa using hunknown d hd
  constructor
  · simp [readTaskHandler.ServeHTTP, ReadTask, FindOne, hid, hfind, StatusOK]
  · intro msg
    simp [readTaskHandler.ServeHTTP, ReadTask, FindOne, hid, httpError,
      StatusInternalServerError]

/-- The id "z" is not among two stored tasks. -/
theorem readTaskHandler_unknown_id_witness :
    "z" ≠ "" ∧ (∀ d ∈ [taskA, taskC], d.ID ≠ "z") ∧
    readTaskHandler.ServeHTTP none [taskA, taskC] "z" = ⟨200, "application/json", .json none⟩ ∧
    ∀ msg, (readTaskHandler.ServeHTTP (some msg) [taskA, taskC] "z").status = 500 :=
  ⟨by decide, by decide, readTaskHandler_unknown_id [taskA, taskC] "z" (by decide) (by decide)⟩

/-! ## `startedAt` is never reset -/

/-- C8: whatever the operation, its arguments, the clock reading and the state of
the connection, a stored task whose `startedAt` is set keeps its place, its id and
the same `startedAt` value. -/
theorem startedAt_never_reset (fault : Option String) (now : Time) (op : Op) (c : Collection)
    (i : Nat) (d : Task) (v : Time) (hi : (c)[i]? = some d) (hv : d.StartedAt = some v) :
    ∃ e, (op.apply fault now c)[i]? = some e ∧ e.ID = d.ID ∧ e.StartedAt = some v := by
  cases op with
  | CreateTask task =>
    rcases CreateTask_cases fault c task with h | ⟨_, _, _, _, h⟩
    · exact ⟨d, by simp only [Op.apply]; rw [h]; exact hi, rfl, hv⟩
    · exact ⟨d, by simp only [Op.apply]; rw [h]; exact get_append_keep c (bsonTask task) i d hi,
        rfl, hv⟩
  | ReadTask id => exact ⟨d, hi, rfl, hv⟩
  | StartTask =>
    rcases StartTask_cases fault now c with h | ⟨l1, p, l2, hc, hp, h⟩
    · exact ⟨d, by simp only [Op.apply]; rw [h]; exact hi, rfl, hv⟩
    · rw [hc] at hi
      rcases get_replace_cases l1 l2 p { p with StartedAt := some now } i d hi with
        ⟨_, hdp, _⟩ | ⟨_, hget⟩
      · rw [hdp, hp] at hv
        simp at hv
      · exact ⟨d, by simp only [Op.apply]; rw [h]; exact hget, rfl, hv⟩
  | FinishTask id =>
    rcases FinishTask_cases fault now c id with h | ⟨l1, p, l2, hc, _, _, h⟩
    · exact ⟨d, by simp only [Op.apply]; rw [h]; exact hi, rfl, hv⟩
    · rw [hc] at hi
      rcases get_replace_cases l1 l2 p { p with FinishedAt := some now } i d hi with
        ⟨_, hdp, hget⟩ | ⟨_, hget⟩
      · exact ⟨{ p with FinishedAt := some now },
          by simp only [Op.apply]; rw [h]; exact hget, by rw [hdp], by rw [← hdp]; exact hv⟩
      · exact ⟨d, by simp only [Op.apply]; rw [h]; exact hget, rfl, hv⟩

/-- A claim leaves the started task at index 1 alone. -/
theorem startedAt_never_reset_witness :
    ([taskA, taskC])[1]? = some taskC ∧ taskC.StartedAt = some 6000000 ∧
    ∃ e, (Op.StartTask.apply none 10000000 [taskA, taskC])[1]? = some e ∧ e.ID = taskC.ID ∧
      e.StartedAt = some 6000000 :=
  ⟨rfl, rfl, startedAt_never_reset none 10000000 Op.StartTask [taskA, taskC] 1 taskC 6000000 rfl rfl⟩

/-! ## `finishedAt` and repeated completion -/

/-- C9, counterexample: a second `FinishTask` on a finished task succeeds and
replaces its `finishedAt` (3 ms) by the current time (10 ms). -/
theorem FinishTask_overwrites_finishedAt :
    ([taskA, taskD])[1]? = some taskD ∧ taskD.FinishedAt = some 3000000 ∧
    FinishTask none 10000000 [taskA, taskD] "d" = (.ok (), [taskA, ⟨"d", some [], 1000000, some 2000000, some 10000000⟩]) ∧
    ((Op.FinishTask "d").apply none 10000000 [taskA, taskD])[1]?
      = some ⟨"d", some [], 1000000, some 2000000, some 10000000⟩ ∧
    (some 10000000 : Option Time) ≠ some 3000000 :=
  ⟨rfl, rfl, rfl, rfl, by decide⟩

/-- C9, amended: a set `finishedAt` is kept by every operation other than a
`FinishTask` on the id of that task; a `FinishTask` on that id that reaches the store
overwrites it with the current time. -/
theorem finishedAt_changed_only_by_FinishTask (fault : Option String) (now : Time) (op : Op)
    (c : Collection) (i : Nat) (d : Task) (v : Time)
    (hi : (c)[i]? = some d) (hv : d.FinishedAt = some v) :
    (op ≠ Op.FinishTask d.ID →
      ∃ e, (op.apply fault now c)[i]? = some e ∧ e.ID = d.ID ∧ e.FinishedAt = some v) ∧
    (d.ID ≠ "" → (c.map (fun t => t.ID)).Nodup →
      FinishTask none now c d.ID = (.ok (), (Op.FinishTask d.ID).apply none now c) ∧
      ((Op.FinishTask d.ID).apply none now c)[i]?
        = some ⟨d.ID, d.Data, d.CreatedAt, d.StartedAt, some now⟩) := by
  constructor
  · intro hop
    cases op with
    | CreateTask task =>
      rcases CreateTask_cases fault c task with h | ⟨_, _, _, _, h⟩
      · exact ⟨d, by simp only [Op.apply]; rw [h]; exact hi, rfl, hv⟩
      · exact ⟨d, by simp only [Op.apply]; rw [h]; exact get_append_keep c (bsonTask task) i d hi,
          rfl, hv⟩
    | ReadTask id => exact ⟨d, hi, rfl, hv⟩
    | StartTask =>
      rcases StartTask_cases fault now c with h | ⟨l1, p, l2, hc, hp, h⟩
      · exact ⟨d, by simp only [Op.apply]; rw [h]; exact hi, rfl, hv⟩
      · rw [hc] at hi
        rcases get_replace_cases l1 l2 p { p with StartedAt := some now } i d hi with
          ⟨_, hdp, hget⟩ | ⟨_, hget⟩
        · exact ⟨{ p with StartedAt := some now },
            by simp only [Op.apply]; rw [h]; exact hget, by rw [hdp], by rw [← hdp]; exact hv⟩
        · exact ⟨d, by simp only [Op.apply]; rw [h]; exact hget, rfl, hv⟩
    | FinishTask id =>
      rcases FinishTask_cases fault now c id with h | ⟨l1, p, l2, hc, hpid, _, h⟩
      · exact ⟨d, by simp only [Op.apply]; rw [h]; exact hi, rfl, hv⟩
      · rw [hc] at hi
        rcases get_replace_cases l1 l2 p { p with FinishedAt := some now } i d hi with
          ⟨_, hdp, _⟩ | ⟨_, hget⟩
        · exfalso
          apply hop
          rw [hdp, hpid]
        · exact ⟨d, by simp only [Op.apply]; rw [h]; exact hget, rfl, hv⟩
  · intro hid hnodup
    obtain ⟨l1, p, l2, hc, hpid, hl1, hs⟩ :=
      FinishTask_hit now c d.ID hid ⟨d, List.getElem?_mem hi, rfl⟩
    have happly : (Op.FinishTask d.ID).apply none now c
        = l1 ++ { p with FinishedAt := some now } :: l2 := by
      simp only [Op.apply]; rw [hs]
    refine ⟨by rw [happly]; exact hs, ?_⟩
    rw [happly]
    have hi2 := hi
    rw [hc] at hi2
    rcases get_replace_cases l1 l2 p { p with FinishedAt := some now } i d hi2 with
      ⟨_, hdp, hget⟩ | ⟨hne, _⟩
    · rw [hget, hdp]
    · exfalso
      rcases get_other_mem l1 l2 p i d hi2 hne with hmem | hmem
      · exact hl1 d hmem rfl
      · rw [hc, List.map_append, List.map_cons] at hnodup
        have h2 := (List.nodup_middle.mp hnodup)
        rw [List.nodup_cons] at h2
        apply h2.1
        rw [List.mem_append]
        right
        exact List.mem_map.mpr ⟨d, hmem, hpid.symm⟩

/-- Completing another task keeps the finished one; completing it again does not. -/
theorem finishedAt_changed_only_by_FinishTask_witness :
    ([taskA, taskD])[1]? = some taskD ∧ taskD.FinishedAt = some 3000000 ∧
    (∃ e, ((Op.FinishTask "a").apply none 10000000 [taskA, taskD])[1]? = some e ∧ e.ID = taskD.ID ∧
      e.FinishedAt = some 3000000) ∧
    FinishTask none 10000000 [taskA, taskD] taskD.ID
      = (.ok (), (Op.FinishTask taskD.ID).apply none 10000000 [taskA, taskD]) ∧
    ((Op.FinishTask taskD.ID).apply none 10000000 [taskA, taskD])[1]?
      = some ⟨taskD.ID, taskD.Data, taskD.CreatedAt, taskD.StartedAt, some 10000000⟩ :=
  ⟨rfl, rfl,
    (finishedAt_changed_only_by_FinishTask none 10000000 (Op.FinishTask "a") [taskA, taskD] 1 taskD 3000000
      rfl rfl).1 (by decide),
    (finishedAt_changed_only_by_FinishTask none 10000000 (Op.FinishTask "a") [taskA, taskD] 1 taskD 3000000
      rfl rfl).2 (by decide) (by decide)⟩

/-! ## `finishedAt` against `startedAt` -/

/-- C10, counterexample: a task is created, claimed at a clock reading of 10 ms and
completed at a clock reading of 7 ms.  `FinishTask` succeeds and leaves the record
with a `finishedAt` of 7 ms, earlier than its `startedAt` of 10 ms. -/
theorem FinishTask_finishedAt_before_startedAt :
    run [Event.mk none 5000000 (Op.CreateTask taskA), Event.mk none 10000000 Op.StartTask] []
      = [⟨"a", some [], 5000000, some 10000000, none⟩] ∧
    FinishTask none 7000000 [⟨"a", some [], 5000000, some 10000000, none⟩] "a"
      = (.ok (), [⟨"a", some [], 5000000, some 10000000, some 7000000⟩]) ∧
    ¬ ((10000000 : Time) ≤ 7000000) :=
  ⟨rfl, rfl, by decide⟩

/-- C10, amended: for every stored task, `FinishTask` on its id sets its `finishedAt`
to the clock reading of the call and changes nothing else, `startedAt` included; the
code compares no timestamps, so the new `finishedAt` is at least the `startedAt` of
the task exactly when that reading is not earlier than the stored `startedAt`. -/
theorem FinishTask_sets_finishedAt_to_now (now : Time) (c : Collection) (d : Task)
    (hids : (c.map (fun t => t.ID)).Nodup) (hd : d ∈ c) (hid : d.ID ≠ "") :
    ∃ l1 l2 e, c = l1 ++ d :: l2 ∧
      FinishTask none now c d.ID = (.ok (), l1 ++ e :: l2) ∧
      e = ⟨d.ID, d.Data, d.CreatedAt, d.StartedAt, some now⟩ ∧
      ∀ st, e.StartedAt = some st → ((∃ f, e.FinishedAt = some f ∧ st ≤ f) ↔ st ≤ now) := by
  obtain ⟨l1, p, l2, hc, hpid, _, hs⟩ := FinishTask_hit now c d.ID hid ⟨d, hd, rfl⟩
  have hp : p ∈ c := by rw [hc]; simp
  have hpd : p = d := List.inj_on_of_nodup_map hids hp hd hpid
  subst hpd
  refine ⟨l1, l2, _, hc, hs, rfl, ?_⟩
  intro st _
  constructor
  · rintro ⟨f, hf, hle⟩
    have : now = f := by simpa using hf
    rw [this]; exact hle
  · intro hle
    exact ⟨now, rfl, hle⟩

/-- Completing at 7 ms the sample task that was started at 6 ms. -/
theorem FinishTask_sets_finishedAt_to_now_witness :
    ([taskA, taskC].map (fun t => t.ID)).Nodup ∧ taskC ∈ [taskA, taskC] ∧ taskC.ID ≠ "" ∧
    ∃ l1 l2 e, [taskA, taskC] = l1 ++ taskC :: l2 ∧
      FinishTask none 7000000 [taskA, taskC] taskC.ID = (.ok (), l1 ++ e :: l2) ∧
      e = ⟨taskC.ID, taskC.Data, taskC.CreatedAt, taskC.StartedAt, some 7000000⟩ ∧
      ∀ st, e.StartedAt = some st →
        ((∃ f, e.FinishedAt = some f ∧ st ≤ f) ↔ st ≤ 7000000) :=
  ⟨by decide, by decide, by decide,
    FinishTask_sets_finishedAt_to_now 7000000 [taskA, taskC] taskC (by decide) (by decide)
      (by decide)⟩

end MongoTasks
